import Mathlib

/-!
Verification development for the MRtrix streamline-tractography core:
the FACT stepping method (`src/dwi/tractography/algorithms/FACT.h`),
the shared per-run configuration (`src/dwi/tractography/tracking/shared.h`)
and the streamline track-file writer/reader (`src/dwi/tractography/file.h`).

Floating-point quantities are embedded as rationals where only field
operations and comparisons occur (keeping every definition executable),
and as reals where genuinely transcendental values (`cos`, π, cube roots)
are computed. Where sentinel values NaN/Infinity are meaningful, an
explicit tagged value type over ℚ is used. File contents are embedded at
the granularity of one 3-float point record, since every write performed
by the writer is a whole, point-aligned record.
-/

namespace MRtrix

/-! ### Termination codes -/

/-- Modelled from the spec: the termination-reason enumeration of
`dwi/tractography/tracking/types.h` (not among the sources; only its users
are), with its 8 variants, plus the `CONTINUE` code returned by `next()`
when the step is accepted. -/
inductive term_t where
  | CONTINUE
  | UNDEFINED
  | CALIBRATE_FAIL
  | EXIT_IMAGE
  | BAD_SIGNAL
  | HIGH_CURVATURE
  | MAX_LENGTH
  | EXIT_MASK
  | ENTER_EXCLUDE
deriving DecidableEq, Repr

/-! ### Geometry: `Point<value_type>` as a 3-vector (FACT side) -/

/-- A 3-component vector of rationals, embedding `Point<value_type>` where
the numeric content (positions, directions) matters and no sentinel values
occur. -/
structure Vec3 where
  x : ℚ
  y : ℚ
  z : ℚ
deriving DecidableEq, Repr

instance : Add Vec3 := ⟨fun a b => ⟨a.x + b.x, a.y + b.y, a.z + b.z⟩⟩

instance : Neg Vec3 := ⟨fun a => ⟨-a.x, -a.y, -a.z⟩⟩

instance : SMul ℚ Vec3 := ⟨fun r a => ⟨r * a.x, r * a.y, r * a.z⟩⟩

/-- Dot product, embedding `Point::dot`. -/
def Vec3.dot (a b : Vec3) : ℚ := a.x * b.x + a.y * b.y + a.z * b.z

/-! ### The FACT tracking method (`Algorithms::FACT`) -/

namespace FACT

/-- The slice of `FACT::Shared` (via `SharedBase`) read by `do_init` /
`do_next`: the ongoing FA threshold, the seed FA threshold, the
precomputed cosine of the curvature limit, and the step size. -/
structure Shared where
  threshold : ℚ
  init_threshold : ℚ
  cos_max_angle : ℚ
  step_size : ℚ
deriving DecidableEq, Repr

/-- The per-streamline working state of `MethodBase` used by FACT: current
position `pos` and current direction `dir`. -/
structure MethodState where
  pos : Vec3
  dir : Vec3
deriving DecidableEq, Repr

/-- The outcome of sampling the image at the current position and fitting
the tensor model there: `none` when `get_data` fails (position outside the
image domain), otherwise the FA value `tensor2FA` computes from the fitted
tensor together with the principal eigenvector that `get_EV` would store
into `dir`. The eigen-decomposition itself is numerical detail external to
the control flow under verification. -/
def Sample : Type := Option (ℚ × Vec3)

/-- Embeds `FACT::do_next` (FACT.h lines 137-160): reject on low FA;
otherwise remember `prev_dir`, store the freshly computed eigenvector into
`dir` (`get_EV`), test curvature on the pre-correction dot product, flip
`dir` if antipodal, and advance `pos` by `dir * step_size`. -/
def do_next (S : Shared) (fa : ℚ) (ev : Vec3) (st : MethodState) :
    term_t × MethodState :=
  if fa < S.threshold then
    (term_t.BAD_SIGNAL, st)
  else
    let prev_dir := st.dir
    let st1 : MethodState := { st with dir := ev }
    let d := prev_dir.dot st1.dir
    if |d| < S.cos_max_angle then
      (term_t.HIGH_CURVATURE, st1)
    else
      let st2 := if d < 0 then { st1 with dir := -st1.dir } else st1
      (term_t.CONTINUE, { st2 with pos := st2.pos + S.step_size • st2.dir })

/-- Embeds `FACT::next` (FACT.h lines 90-95): `EXIT_IMAGE` when `get_data`
fails at the current position, otherwise `do_next` on the sampled data. -/
def next (S : Shared) (s : Sample) (st : MethodState) : term_t × MethodState :=
  match s with
  | none => (term_t.EXIT_IMAGE, st)
  | some (fa, ev) => do_next S fa ev st

/-- Embeds `FACT::init` / `FACT::do_init` (FACT.h lines 81-86, 124-134):
fail when `get_data` fails at the seed or the seed FA is below
`init_threshold`; otherwise establish the initial direction via `get_EV`. -/
def init (S : Shared) (s : Sample) (st : MethodState) : Bool × MethodState :=
  match s with
  | none => (false, st)
  | some (fa, ev) =>
      if fa < S.init_threshold then (false, st)
      else (true, { st with dir := ev })

end FACT

/-! ### Properties map and `SharedBase` (`tracking/shared.h`) -/

/-- The property keys touched by the `SharedBase` code under
verification. The C++ `Properties` map is keyed by strings; the embedding
uses one constructor per distinct key occurring in the source. -/
inductive PKey where
  | threshold
  | init_threshold
  | step_size
  | max_dist
  | min_dist
  | max_angle
  | output_step_size
deriving DecidableEq, Repr

/-- The numeric view of the `Properties` map: present keys carry their
parsed numeric value. -/
def PropMap : Type := PKey → Option ℝ

/-- Modelled from the spec: `Properties::set(target, key)` of
`dwi/tractography/properties.h` (not among the sources; only its callers
are) fills the target from the key when the key is present, and otherwise
leaves the supplied default and inserts it into the map. -/
def propSet (m : PropMap) (dflt : ℝ) (k : PKey) : ℝ × PropMap :=
  match m k with
  | some v => (v, m)
  | none => (dflt, fun j => if j = k then some dflt else m j)

/-- Direct insertion `properties[key] = value`. -/
def pinsert (m : PropMap) (k : PKey) (v : ℝ) : PropMap :=
  fun j => if j = k then some v else m j

/-- The numeric slice of `SharedBase` state written by `set_step_size` and
the constructor. -/
structure SharedState where
  step_size : ℝ
  max_angle : ℝ
  max_angle_rk4 : ℝ
  cos_max_angle : ℝ
  cos_max_angle_rk4 : ℝ
  max_num_points : ℤ
  min_num_points : ℤ
  threshold : ℝ
  init_threshold : ℝ
  rk4 : Bool

/-- Embeds `SharedBase::vox()` (shared.h lines 210-213): the cube root of
the voxel volume. -/
noncomputable def vox (a b c : ℝ) : ℝ := (a * b * c) ^ ((1 : ℝ) / 3)

/-- Embeds `SharedBase::set_step_size` (shared.h lines 215-244), with the
voxel size `vx = vox()` and the downsampling factor passed explicitly.
`round` embeds the positive-argument behaviour of the source's `round`
(half away from zero, which agrees with Mathlib's `round` on the positive
values arising here). Each `properties.set` call may override the freshly
computed value when the key is already present. -/
noncomputable def set_step_size (dsfactor : ℕ) (vx stepsize : ℝ)
    (s : SharedState) (m : PropMap) : SharedState × PropMap :=
  let p1 := propSet m (stepsize * vx) PKey.step_size
  let ss := p1.1
  let m1 := if 1 < dsfactor then
      pinsert p1.2 PKey.output_step_size (ss * dsfactor) else p1.2
  let p2 := propSet m1 (100 * vx) PKey.max_dist
  let mnp : ℤ := round (p2.1 / ss) + 1
  let p3 := propSet p2.2 (5 * vx) PKey.min_dist
  let minp : ℤ := max 2 (round (p3.1 / ss) + 1)
  let p4 := propSet p3.2 (90 * ss / vx) PKey.max_angle
  let ma := p4.1 * (Real.pi / 180)
  let cma := Real.cos ma
  if s.rk4 then
    ({ s with
        step_size := ss, max_num_points := mnp, min_num_points := minp,
        max_angle_rk4 := ma, cos_max_angle_rk4 := cma,
        max_angle := Real.pi, cos_max_angle := 0 }, p4.2)
  else
    ({ s with
        step_size := ss, max_num_points := mnp, min_num_points := minp,
        max_angle := ma, cos_max_angle := cma }, p4.2)

/-- Embeds the threshold initialisation of the `SharedBase` constructor
(shared.h lines 88-105): `threshold` starts at 0.1 and is passed through
`properties.set`; then `init_threshold` starts at twice the resulting
threshold and is passed through `properties.set`. The interleaved
constructor statements access distinct keys only. -/
noncomputable def sharedThresholds (m : PropMap) : (ℝ × ℝ) × PropMap :=
  let p1 := propSet m 0.1 PKey.threshold
  let p2 := propSet p1.2 (2 * p1.1) PKey.init_threshold
  ((p1.1, p2.1), p2.2)

/-! ### Track file values (`file.h`) -/

/-- A stored floating value of the track-file data region: a finite
number, NaN, or (positive) Infinity — the two sentinel values the format
reserves. -/
inductive FVal where
  | num (q : ℚ)
  | nan
  | inf
deriving DecidableEq, Repr

/-- Embeds `isinf` on a stored component. -/
def FVal.isinf : FVal → Bool
  | .inf => true
  | _ => false

/-- Embeds `isnan` on a stored component. -/
def FVal.isnan : FVal → Bool
  | .nan => true
  | _ => false

/-- One 3-float point record of the track file. -/
structure TPoint where
  c0 : FVal
  c1 : FVal
  c2 : FVal
deriving DecidableEq, Repr

/-- Embeds `WriterUnbuffered::delimiter()`: the all-NaN end-of-streamline
record. -/
def delimiter : TPoint := ⟨FVal.nan, FVal.nan, FVal.nan⟩

/-- Embeds `WriterUnbuffered::barrier()`: the all-Infinity end-of-data
record. -/
def barrier : TPoint := ⟨FVal.inf, FVal.inf, FVal.inf⟩

/-- A point record whose first component is neither NaN nor Infinity, so
that the reader treats it as track data rather than as a sentinel. -/
def TPoint.regular (p : TPoint) : Prop := p.c0 ≠ FVal.nan ∧ p.c0 ≠ FVal.inf

instance (p : TPoint) : Decidable p.regular := by
  unfold TPoint.regular; infer_instance

/-- A streamline as consumed by the writer: its points and its scalar
weight. -/
structure Streamline where
  points : List TPoint
  weight : ℚ
deriving DecidableEq, Repr

/-! ### The track-file writer (`file.h`)

All writer definitions are parameterised by `fmt : TPoint → TPoint`, the
per-point byte-order conversion `format_point` performs for the header's
datatype (an involution: both byte orders swap back to themselves). The
reader applies the same conversion when decoding. -/

/-- The observable state of `WriterUnbuffered` together with the file it
writes: the data region (the point records following the header),
the record index of the current barrier, the in-memory `count` /
`total_count` of `__WriterBase__`, the counts persisted in the header
region by `update_counts`, whether a weights path is set, and the
contents of the weights sidecar file. -/
structure WriterState where
  file : List TPoint
  barrier_addr : ℕ
  count : ℕ
  total_count : ℕ
  hdr_count : ℕ
  hdr_total_count : ℕ
  weights_enabled : Bool
  weights_file : List ℚ
deriving DecidableEq, Repr

/-- Embeds the `WriterUnbuffered` constructor (file.h lines 191-210):
write the header, record the barrier offset, and write one formatted
barrier record. The persisted header counts start at 0. -/
def WriterState.create (fmt : TPoint → TPoint) (weights_enabled : Bool) :
    WriterState :=
  { file := [fmt barrier], barrier_addr := 0, count := 0, total_count := 0,
    hdr_count := 0, hdr_total_count := 0, weights_enabled,
    weights_file := [] }

/-- Embeds `WriterUnbuffered::commit` (file.h lines 279-297): given the
already-formatted payload `data[0..num_points-1]` (the C buffer holds one
extra slot into which the fresh formatted barrier is placed), append
`data[1..]` plus the fresh barrier at the end of the file, set the barrier
offset to the last record written, overwrite the previous barrier record
with `data[0]`, and persist the current counts (`update_counts`, modelled
from the spec: `file_base.h` is not among the sources). An empty payload
returns immediately. -/
def commit (fmt : TPoint → TPoint) (data : List TPoint) (w : WriterState) :
    WriterState :=
  match data with
  | [] => w
  | p0 :: rest =>
      { w with
        file := (w.file ++ rest ++ [fmt barrier]).set w.barrier_addr p0,
        barrier_addr := w.file.length + rest.length,
        hdr_count := w.count, hdr_total_count := w.total_count }

/-- Embeds `WriterUnbuffered::operator()` (file.h lines 215-232). Note
that the source's buffer-filling loop formats `barrier()` into every point
slot (`format_point (barrier(), buffer[n])`, line 220) rather than the
track's point `tck[n]`; the delimiter record follows, then `commit`. The
weight is appended to the sidecar for a non-empty track, `count` is
incremented for a non-empty track, and `total_count` always. -/
def wAppend (fmt : TPoint → TPoint) (tck : Streamline) (w : WriterState) :
    WriterState :=
  if tck.points.isEmpty then
    { w with total_count := w.total_count + 1 }
  else
    let buffer := tck.points.map (fun _ => fmt barrier) ++ [fmt delimiter]
    let w1 := commit fmt buffer w
    let w2 := if w1.weights_enabled then
        { w1 with weights_file := w1.weights_file ++ [tck.weight] } else w1
    { w2 with count := w2.count + 1, total_count := w2.total_count + 1 }

/-- Embeds `WriterUnbuffered::set_weights_path` (file.h lines 236-245):
fail when a weights path is already set; otherwise fail when the main
track file name exists and overwriting is not forced; otherwise set the
path and truncate the weights file. `none` models the thrown exception. -/
def set_weights_path (overwrite_files name_exists : Bool) (w : WriterState) :
    Option WriterState :=
  if w.weights_enabled then none
  else if !overwrite_files && name_exists then none
  else some { w with weights_enabled := true, weights_file := [] }

/-- The state of the buffered `Writer`: the underlying unbuffered state,
the buffer capacity in points, the formatted in-RAM point buffer, and the
in-RAM weights buffer. -/
structure BufWriter where
  base : WriterState
  buffer_capacity : ℕ
  buffer : List TPoint
  weights_buffer : List ℚ
deriving DecidableEq, Repr

/-- Embeds the `Writer` constructor (file.h lines 342-346). -/
def BufWriter.create (fmt : TPoint → TPoint) (cap : ℕ)
    (weights_enabled : Bool) : BufWriter :=
  { base := WriterState.create fmt weights_enabled, buffer_capacity := cap,
    buffer := [], weights_buffer := [] }

/-- Embeds `Writer::commit` (file.h lines 384-392): flush the point buffer
through the unbuffered `commit`, reset it, and, when weights are enabled,
flush and clear the weights buffer. -/
def bufCommit (fmt : TPoint → TPoint) (b : BufWriter) : BufWriter :=
  let w1 := commit fmt b.buffer b.base
  if w1.weights_enabled then
    { base := { w1 with weights_file := w1.weights_file ++ b.weights_buffer },
      buffer_capacity := b.buffer_capacity, buffer := [],
      weights_buffer := [] }
  else
    { base := w1, buffer_capacity := b.buffer_capacity, buffer := [],
      weights_buffer := b.weights_buffer }

/-- Embeds `Writer::operator()` (file.h lines 354-370), additionally
reporting how many internal flushes (`commit()` calls) the append
performed: for a non-empty track, flush first if the buffer would
overflow, then place the formatted points and a formatted delimiter in
the buffer, buffer the weight, and increment `count`; `total_count` is
always incremented. -/
def bufAppendCore (fmt : TPoint → TPoint) (tck : Streamline) (b : BufWriter) :
    BufWriter × ℕ :=
  if tck.points.isEmpty then
    ({ b with base := { b.base with total_count := b.base.total_count + 1 } }, 0)
  else
    let pr := if b.buffer.length + tck.points.length > b.buffer_capacity then
        (bufCommit fmt b, 1) else (b, 0)
    let b1 := pr.1
    let b2 := { b1 with
      buffer := b1.buffer ++ tck.points.map fmt ++ [fmt delimiter] }
    let b3 := if b2.base.weights_enabled then
        { b2 with weights_buffer := b2.weights_buffer ++ [tck.weight] } else b2
    ({ b3 with base := { b3.base with
        count := b3.base.count + 1,
        total_count := b3.base.total_count + 1 } }, pr.2)

/-- `Writer::operator()` without the flush count. -/
def bufAppend (fmt : TPoint → TPoint) (tck : Streamline) (b : BufWriter) :
    BufWriter :=
  (bufAppendCore fmt tck b).1

/-- Embeds the `Writer` destructor (file.h lines 349-351): a final
`commit()`. -/
def bufClose (fmt : TPoint → TPoint) (b : BufWriter) : BufWriter :=
  bufCommit fmt b

/-! ### The track-file reader (`file.h`) -/

/-- Embeds the loop of `Reader::operator()` (file.h lines 71-107), run to
exhaustion: decode each record with the byte-order conversion
(`get_next_point`); stop at an Infinity first component or at end of
file; at a NaN first component emit the accumulated track, paired with
weight 1 when no weights were loaded, and otherwise with
`weights[current_index]`, stopping if the index is out of range; any
other record is accumulated. -/
def readLoop (fmt : TPoint → TPoint) (ws : List ℚ) :
    ℕ → List TPoint → List TPoint → List (List TPoint × ℚ)
  | _, _, [] => []
  | idx, acc, p :: rest =>
      let q := fmt p
      if q.c0.isinf then []
      else if q.c0.isnan then
        if ws.isEmpty then (acc, 1) :: readLoop fmt ws (idx + 1) [] rest
        else if idx < ws.length then
          (acc, ws.getD idx 1) :: readLoop fmt ws (idx + 1) [] rest
        else []
      else readLoop fmt ws idx (acc ++ [q]) rest

/-- All tracks (with their weights) that `Reader` yields from a data
region. -/
def readTracks (fmt : TPoint → TPoint) (ws : List ℚ) (file : List TPoint) :
    List (List TPoint × ℚ) :=
  readLoop fmt ws 0 [] file

/-- The formatted encoding of a list of streamlines as the buffered
writer lays them out: each streamline's formatted points followed by a
formatted delimiter. -/
def encS (fmt : TPoint → TPoint) : List Streamline → List TPoint
  | [] => []
  | t :: ts => t.points.map fmt ++ [fmt delimiter] ++ encS fmt ts

/-- The reader output expected for a list of streamlines starting at
weight index `idx`. -/
def pairs (ws : List ℚ) : ℕ → List Streamline → List (List TPoint × ℚ)
  | _, [] => []
  | idx, t :: ts =>
      (t.points, if ws.isEmpty then 1 else ws.getD idx 1) ::
        pairs ws (idx + 1) ts

/-- The data-region bytes the unbuffered writer appends (file.h lines
215-223) for a list of non-empty streamlines, in order: for each
streamline, one formatted barrier record per point (see `wAppend`),
then a formatted delimiter. -/
def ubBody (fmt : TPoint → TPoint) : List Streamline → List TPoint
  | [] => []
  | t :: ts =>
      (t.points.map (fun _ => fmt barrier) ++ [fmt delimiter]) ++ ubBody fmt ts

/-- The invariant tying a buffered writer's state to the sequence `as` of
append attempts made so far: the non-empty attempts split into a flushed
prefix (already in the file, each as its formatted points plus a formatted
delimiter, with the barrier last) and a pending suffix (still in the RAM
buffer, in the same layout); weights mirror the same split; `count` and
`total_count` count non-empty and all attempts; and no data has ever been
committed while the buffer never held anything (in which case the
persisted `total_count` is still 0). -/
def BufInv (fmt : TPoint → TPoint) (as : List Streamline) (b : BufWriter) :
    Prop :=
  ∃ flushed pending : List Streamline,
    as.filter (fun t => !t.points.isEmpty) = flushed ++ pending ∧
    b.base.file = encS fmt flushed ++ [fmt barrier] ∧
    b.base.barrier_addr = (encS fmt flushed).length ∧
    b.buffer = encS fmt pending ∧
    b.base.weights_file = flushed.map Streamline.weight ∧
    b.weights_buffer = pending.map Streamline.weight ∧
    b.base.count = flushed.length + pending.length ∧
    b.base.total_count = as.length ∧
    (pending = [] → flushed = [] ∧ b.base.hdr_total_count = 0) ∧
    b.base.weights_enabled = true

/-! ### Helper lemmas -/

theorem list_set_append {α : Type} (B : List α) (x p0 : α) (r : List α) :
    (B ++ x :: r).set B.length p0 = B ++ p0 :: r := by
  induction B with
  | nil => rfl
  | cons a B ih => simp [ih]

theorem commit_ne (fmt : TPoint → TPoint) (data : List TPoint)
    (w : WriterState) (B : List TPoint) (hd : data ≠ [])
    (h1 : w.file = B ++ [fmt barrier]) (h2 : w.barrier_addr = B.length) :
    (commit fmt data w).file = B ++ data ++ [fmt barrier] ∧
      (commit fmt data w).barrier_addr = B.length + data.length ∧
      (commit fmt data w).count = w.count ∧
      (commit fmt data w).total_count = w.total_count ∧
      (commit fmt data w).hdr_count = w.count ∧
      (commit fmt data w).hdr_total_count = w.total_count ∧
      (commit fmt data w).weights_enabled = w.weights_enabled ∧
      (commit fmt data w).weights_file = w.weights_file := by
  obtain ⟨p0, rest, rfl⟩ := List.exists_cons_of_ne_nil hd
  have hset : (w.file ++ rest ++ [fmt barrier]).set w.barrier_addr p0 =
      B ++ (p0 :: rest) ++ [fmt barrier] := by
    rw [h1, h2]
    have hshape : (B ++ [fmt barrier]) ++ rest ++ [fmt barrier] =
        B ++ (fmt barrier) :: (rest ++ [fmt barrier]) := by simp
    rw [hshape, list_set_append]
    simp
  refine ⟨?_, ?_, rfl, rfl, rfl, rfl, rfl, rfl⟩
  · simpa [commit] using hset
  · simp [commit, h1]
    omega

theorem commit_counts (fmt : TPoint → TPoint) (data : List TPoint)
    (w : WriterState) :
    (commit fmt data w).count = w.count ∧
      (commit fmt data w).total_count = w.total_count ∧
      (commit fmt data w).weights_enabled = w.weights_enabled ∧
      (commit fmt data w).weights_file = w.weights_file := by
  cases data <;> exact ⟨rfl, rfl, rfl, rfl⟩

theorem TPoint.regular_flags (p : TPoint) (h : p.regular) :
    p.c0.isinf = false ∧ p.c0.isnan = false := by
  obtain ⟨h1, h2⟩ := h
  cases hp : p.c0 with
  | num q => exact ⟨rfl, rfl⟩
  | nan => exact absurd hp h1
  | inf => exact absurd hp h2

theorem readLoop_regular (fmt : TPoint → TPoint)
    (hfmt : ∀ p, fmt (fmt p) = p) (ws : List ℚ) (ps : List TPoint) :
    ∀ (idx : ℕ) (acc : List TPoint) (r : List TPoint),
      (∀ p ∈ ps, p.regular) →
      readLoop fmt ws idx acc (ps.map fmt ++ r) =
        readLoop fmt ws idx (acc ++ ps) r := by
  induction ps with
  | nil => intro idx acc r _; simp
  | cons p ps ih =>
      intro idx acc r hreg
      have hp := TPoint.regular_flags p (hreg p (by simp))
      have : readLoop fmt ws idx acc ((p :: ps).map fmt ++ r) =
          readLoop fmt ws idx (acc ++ [p]) (ps.map fmt ++ r) := by
        simp [readLoop, hfmt p, hp.1, hp.2]
      rw [this, ih idx (acc ++ [p]) r (fun q hq => hreg q (by simp [hq]))]
      simp

theorem readLoop_delim (fmt : TPoint → TPoint)
    (hfmt : ∀ p, fmt (fmt p) = p) (ws : List ℚ) (idx : ℕ)
    (acc : List TPoint) (r : List TPoint) :
    readLoop fmt ws idx acc (fmt delimiter :: r) =
      if ws.isEmpty then (acc, 1) :: readLoop fmt ws (idx + 1) [] r
      else if idx < ws.length then
        (acc, ws.getD idx 1) :: readLoop fmt ws (idx + 1) [] r
      else [] := by
  simp [readLoop, hfmt, delimiter, FVal.isinf, FVal.isnan]

theorem readLoop_barrier (fmt : TPoint → TPoint)
    (hfmt : ∀ p, fmt (fmt p) = p) (ws : List ℚ) (idx : ℕ)
    (acc : List TPoint) (r : List TPoint) :
    readLoop fmt ws idx acc (fmt barrier :: r) = [] := by
  simp [readLoop, hfmt, barrier, FVal.isinf]

theorem encS_append (fmt : TPoint → TPoint) (l1 l2 : List Streamline) :
    encS fmt (l1 ++ l2) = encS fmt l1 ++ encS fmt l2 := by
  induction l1 with
  | nil => simp [encS]
  | cons t ts ih => simp [encS, ih]

theorem readLoop_encS (fmt : TPoint → TPoint)
    (hfmt : ∀ p, fmt (fmt p) = p) (ws : List ℚ) (ts : List Streamline) :
    ∀ idx : ℕ, (∀ t ∈ ts, ∀ p ∈ t.points, p.regular) →
      (ws = [] ∨ idx + ts.length ≤ ws.length) →
      readLoop fmt ws idx [] (encS fmt ts ++ [fmt barrier]) =
        pairs ws idx ts := by
  induction ts with
  | nil =>
      intro idx _ _
      simp [encS, pairs, readLoop_barrier fmt hfmt]
  | cons t ts ih =>
      intro idx hreg hlen
      have hstep : readLoop fmt ws idx [] (encS fmt (t :: ts) ++ [fmt barrier]) =
          readLoop fmt ws idx t.points
            (fmt delimiter :: (encS fmt ts ++ [fmt barrier])) := by
        have hsh : encS fmt (t :: ts) ++ [fmt barrier] =
            t.points.map fmt ++
              (fmt delimiter :: (encS fmt ts ++ [fmt barrier])) := by
          simp [encS]
        rw [hsh, readLoop_regular fmt hfmt ws t.points idx [] _
          (fun p hp => hreg t (by simp) p hp)]
        simp
      rw [hstep, readLoop_delim fmt hfmt]
      have hrest : readLoop fmt ws (idx + 1) [] (encS fmt ts ++ [fmt barrier]) =
          pairs ws (idx + 1) ts := by
        refine ih (idx + 1) (fun u hu p hp => hreg u (by simp [hu]) p hp) ?_
        rcases hlen with h | h
        · exact Or.inl h
        · right
          simp only [List.length_cons] at h
          omega
      rcases hlen with h | h
      · subst h
        simp [pairs, hrest]
      · have hne : ws.isEmpty = false := by
          cases hws : ws with
          | nil =>
              subst hws
              simp only [List.length_cons, List.length_nil] at h
              exact absurd h (by omega)
          | cons a l => rfl
        have hidx : idx < ws.length := by
          simp only [List.length_cons] at h
          omega
        simp [hne, hidx, pairs, hrest]

theorem pairs_map_weight (ts : List Streamline) :
    ∀ pre : List ℚ,
      pairs (pre ++ ts.map Streamline.weight) pre.length ts =
        ts.map (fun t => (t.points, t.weight)) := by
  induction ts with
  | nil => intro pre; simp [pairs]
  | cons t ts ih =>
      intro pre
      have hget : (pre ++ t.weight :: ts.map Streamline.weight).getD
          pre.length 1 = t.weight := by
        rw [List.getD_append_right _ _ _ _ (le_refl _)]
        simp
      have hne : (pre ++ t.weight :: ts.map Streamline.weight).isEmpty =
          false := by
        cases pre <;> rfl
      have hrec := ih (pre ++ [t.weight])
      simp only [List.map_cons] at hrec ⊢
      simp only [pairs, hne, hget, Bool.false_eq_true, if_false]
      refine congrArg (List.cons (t.points, t.weight)) ?_
      have hsh : pre ++ t.weight :: ts.map Streamline.weight =
          (pre ++ [t.weight]) ++ ts.map Streamline.weight := by simp
      rw [hsh]
      have hlen : pre.length + 1 = (pre ++ [t.weight]).length := by simp
      rw [hlen]
      exact hrec

theorem ubBody_ends_delim (fmt : TPoint → TPoint) (ts : List Streamline)
    (h : ts ≠ []) :
    ∃ B2, ubBody fmt ts = B2 ++ [fmt delimiter] := by
  induction ts with
  | nil => exact absurd rfl h
  | cons t ts ih =>
      cases hts : ts with
      | nil =>
          subst hts
          exact ⟨t.points.map (fun _ => fmt barrier), by simp [ubBody]⟩
      | cons u us =>
          obtain ⟨B2, hB2⟩ := ih (by simp [hts])
          rw [← hts]
          refine ⟨(t.points.map (fun _ => fmt barrier) ++ [fmt delimiter])
            ++ B2, ?_⟩
          simp [ubBody, hB2]

theorem wAppend_proj (fmt : TPoint → TPoint) (t : Streamline)
    (hemp : t.points.isEmpty = false) (w : WriterState) :
    (wAppend fmt t w).file =
      (commit fmt (t.points.map (fun _ => fmt barrier) ++ [fmt delimiter])
        w).file ∧
      (wAppend fmt t w).barrier_addr =
        (commit fmt (t.points.map (fun _ => fmt barrier) ++ [fmt delimiter])
          w).barrier_addr := by
  have hcond : ¬ (t.points.isEmpty = true) := by simp [hemp]
  constructor <;>
  · simp only [wAppend]
    rw [if_neg hcond]
    by_cases hwe : (commit fmt
        (t.points.map (fun _ => fmt barrier) ++ [fmt delimiter])
        w).weights_enabled = true
    · rw [if_pos hwe]
    · rw [if_neg hwe]

theorem wAppend_aligned (fmt : TPoint → TPoint) (t : Streamline)
    (ht : t.points ≠ []) (w : WriterState) (B : List TPoint)
    (h1 : w.file = B ++ [fmt barrier]) (h2 : w.barrier_addr = B.length) :
    (wAppend fmt t w).file =
      (B ++ (t.points.map (fun _ => fmt barrier) ++ [fmt delimiter]))
        ++ [fmt barrier] ∧
      (wAppend fmt t w).barrier_addr =
        (B ++ (t.points.map (fun _ => fmt barrier) ++ [fmt delimiter])).length := by
  have hne : (t.points.map (fun _ => fmt barrier) ++ [fmt delimiter]) ≠ [] := by
    simp
  have hcm := commit_ne fmt
    (t.points.map (fun _ => fmt barrier) ++ [fmt delimiter]) w B hne h1 h2
  have hemp : t.points.isEmpty = false := by
    cases hp : t.points with
    | nil => exact absurd hp ht
    | cons a l => rfl
  have hproj := wAppend_proj fmt t hemp w
  constructor
  · rw [hproj.1, hcm.1, List.append_assoc]
  · rw [hproj.2, hcm.2.1]
    simp only [List.length_append, List.length_map, List.length_cons,
      List.length_nil]

theorem foldl_wAppend_aligned (fmt : TPoint → TPoint) (ts : List Streamline) :
    ∀ (w : WriterState) (B : List TPoint), (∀ t ∈ ts, t.points ≠ []) →
      w.file = B ++ [fmt barrier] → w.barrier_addr = B.length →
      (ts.foldl (fun w t => wAppend fmt t w) w).file =
        (B ++ ubBody fmt ts) ++ [fmt barrier] ∧
        (ts.foldl (fun w t => wAppend fmt t w) w).barrier_addr =
          (B ++ ubBody fmt ts).length := by
  induction ts with
  | nil => intro w B _ h1 h2; simpa [ubBody] using ⟨h1, h2⟩
  | cons t ts ih =>
      intro w B hne h1 h2
      have hstep := wAppend_aligned fmt t (hne t (by simp)) w B h1 h2
      have := ih (wAppend fmt t w)
        (B ++ (t.points.map (fun _ => fmt barrier) ++ [fmt delimiter]))
        (fun u hu => hne u (by simp [hu])) hstep.1 hstep.2
      simpa [ubBody] using this

/-! ### Claims about the track-file writer -/

/-- C6: after appending `K` non-empty streamlines through the unbuffered
writer, the data region is some body followed by exactly one formatted
barrier record at the stored barrier offset; the body is empty when
`K = 0` (the barrier immediately follows the header) and otherwise ends
with the last written (formatted) delimiter. -/
theorem writer_barrier_invariant (fmt : TPoint → TPoint)
    (ts : List Streamline) (we : Bool) (h : ∀ t ∈ ts, t.points ≠ []) :
    ∃ body,
      (ts.foldl (fun w t => wAppend fmt t w) (WriterState.create fmt we)).file =
        body ++ [fmt barrier] ∧
      (ts.foldl (fun w t => wAppend fmt t w)
        (WriterState.create fmt we)).barrier_addr = body.length ∧
      (ts = [] → body = []) ∧
      (ts ≠ [] → ∃ B2, body = B2 ++ [fmt delimiter]) := by
  have hfold := foldl_wAppend_aligned fmt ts (WriterState.create fmt we) [] h
    rfl rfl
  refine ⟨ubBody fmt ts, by simpa using hfold.1, by simpa using hfold.2,
    ?_, ?_⟩
  · intro hts; subst hts; rfl
  · intro hts; exact ubBody_ends_delim fmt ts hts

/-- Witness for C6: two concrete one-point streamlines appended through
the unbuffered writer leave the data region ending in a delimiter record
followed by the barrier record. -/
theorem writer_barrier_invariant_witness :
    ((∀ t ∈ [Streamline.mk [TPoint.mk (FVal.num 1) (FVal.num 2) (FVal.num 3)] 1,
        Streamline.mk [TPoint.mk (FVal.num 4) (FVal.num 5) (FVal.num 6)] 1],
      t.points ≠ []) ∧
    ∃ body,
      ([Streamline.mk [TPoint.mk (FVal.num 1) (FVal.num 2) (FVal.num 3)] 1,
        Streamline.mk [TPoint.mk (FVal.num 4) (FVal.num 5) (FVal.num 6)] 1].foldl
          (fun w t => wAppend id t w) (WriterState.create id false)).file =
        body ++ [id barrier] ∧
      ([Streamline.mk [TPoint.mk (FVal.num 1) (FVal.num 2) (FVal.num 3)] 1,
        Streamline.mk [TPoint.mk (FVal.num 4) (FVal.num 5) (FVal.num 6)] 1].foldl
          (fun w t => wAppend id t w)
          (WriterState.create id false)).barrier_addr = body.length ∧
      (([Streamline.mk [TPoint.mk (FVal.num 1) (FVal.num 2) (FVal.num 3)] 1,
        Streamline.mk [TPoint.mk (FVal.num 4) (FVal.num 5) (FVal.num 6)] 1] :
          List Streamline) = [] → body = []) ∧
      (([Streamline.mk [TPoint.mk (FVal.num 1) (FVal.num 2) (FVal.num 3)] 1,
        Streamline.mk [TPoint.mk (FVal.num 4) (FVal.num 5) (FVal.num 6)] 1] :
          List Streamline) ≠ [] → ∃ B2, body = B2 ++ [id delimiter])) :=
  ⟨by decide,
    writer_barrier_invariant id
      [Streamline.mk [TPoint.mk (FVal.num 1) (FVal.num 2) (FVal.num 3)] 1,
        Streamline.mk [TPoint.mk (FVal.num 4) (FVal.num 5) (FVal.num 6)] 1]
      false (by decide)⟩

/-- C2 (divergence evidence): the unbuffered writer's append loop formats
`barrier()` instead of the track point into every point slot (file.h line
220). Appending the single-point streamline `((1,2,3))` to a fresh writer
leaves the data region as barrier-delimiter-barrier — not the track's
point followed by the delimiter and barrier — and the reader then
recovers no streamline from the file. -/
theorem writer_unbuffered_append_drops_points :
    (wAppend id (Streamline.mk
        [TPoint.mk (FVal.num 1) (FVal.num 2) (FVal.num 3)] 1)
        (WriterState.create id false)).file =
      [barrier, delimiter, barrier] ∧
      (wAppend id (Streamline.mk
          [TPoint.mk (FVal.num 1) (FVal.num 2) (FVal.num 3)] 1)
          (WriterState.create id false)).file ≠
        [TPoint.mk (FVal.num 1) (FVal.num 2) (FVal.num 3), delimiter,
          barrier] ∧
      readTracks id []
        (wAppend id (Streamline.mk
            [TPoint.mk (FVal.num 1) (FVal.num 2) (FVal.num 3)] 1)
            (WriterState.create id false)).file = [] := by
  refine ⟨by decide, by decide, by decide⟩

/-- C7 (counterexample to the claim as stated): `set_weights_path`
succeeds on a writer that has already written a streamline, as long as no
weights path was set before — the source checks only `weights_name`
(file.h lines 236-238), not the written count. -/
theorem set_weights_path_after_write_succeeds :
    (wAppend id (Streamline.mk
        [TPoint.mk (FVal.num 1) (FVal.num 2) (FVal.num 3)] 1)
        (WriterState.create id false)).count = 1 ∧
      (set_weights_path true false
        (wAppend id (Streamline.mk
            [TPoint.mk (FVal.num 1) (FVal.num 2) (FVal.num 3)] 1)
            (WriterState.create id false))).isSome = true := by
  refine ⟨by decide, by decide⟩

/-- C7 (amended): `set_weights_path` fails exactly when a weights path has
already been set, or when the (main) output name exists and overwriting is
not forced; the number of streamlines already written is not consulted. -/
theorem set_weights_path_fails_iff (ow ex : Bool) (w : WriterState) :
    (set_weights_path ow ex w = none ↔
      (w.weights_enabled = true ∨ (ow = false ∧ ex = true))) ∧
      (∀ w2, set_weights_path ow ex w = some w2 →
        w2.weights_enabled = true ∧ w2.count = w.count ∧
          w2.total_count = w.total_count) := by
  constructor
  · cases hwe : w.weights_enabled <;> cases ow <;> cases ex <;>
      simp [set_weights_path, hwe]
  · intro w2 hw2
    cases hwe : w.weights_enabled <;> cases ow <;> cases ex <;>
      simp [set_weights_path, hwe] at hw2 <;>
        simp [← hw2]

theorem bufCommit_fields (fmt : TPoint → TPoint) (b : BufWriter) :
    (bufCommit fmt b).base.file = (commit fmt b.buffer b.base).file ∧
      (bufCommit fmt b).buffer = [] ∧
      (bufCommit fmt b).base.weights_enabled = b.base.weights_enabled ∧
      (bufCommit fmt b).base.count = b.base.count ∧
      (bufCommit fmt b).base.total_count = b.base.total_count ∧
      (bufCommit fmt b).buffer_capacity = b.buffer_capacity ∧
      (bufCommit fmt b).base.barrier_addr =
        (commit fmt b.buffer b.base).barrier_addr ∧
      (bufCommit fmt b).base.hdr_count =
        (commit fmt b.buffer b.base).hdr_count ∧
      (bufCommit fmt b).base.hdr_total_count =
        (commit fmt b.buffer b.base).hdr_total_count := by
  have hcc := commit_counts fmt b.buffer b.base
  have hbe := hcc.2.2.1
  by_cases hwe : (commit fmt b.buffer b.base).weights_enabled = true
  · have hb : b.base.weights_enabled = true := hbe.symm.trans hwe
    simp [bufCommit, hwe, hcc.1, hcc.2.1, hb]
  · have hb : b.base.weights_enabled = false := by
      cases h : b.base.weights_enabled
      · rfl
      · exact absurd (hbe.trans h) hwe
    simp [bufCommit, hwe, hcc.1, hcc.2.1, hb]

theorem bufAppendCore_empty (fmt : TPoint → TPoint) (t : Streamline)
    (hemp : t.points.isEmpty = true) (b : BufWriter) :
    (bufAppendCore fmt t b).2 = 0 ∧
      (bufAppendCore fmt t b).1.buffer = b.buffer ∧
      (bufAppendCore fmt t b).1.base.file = b.base.file := by
  simp [bufAppendCore, hemp]

theorem bufAppendCore_flush (fmt : TPoint → TPoint) (t : Streamline)
    (hemp : t.points.isEmpty = false) (b : BufWriter)
    (hov : b.buffer.length + t.points.length > b.buffer_capacity) :
    (bufAppendCore fmt t b).2 = 1 ∧
      (bufAppendCore fmt t b).1.buffer =
        t.points.map fmt ++ [fmt delimiter] ∧
      (bufAppendCore fmt t b).1.base.file =
        (commit fmt b.buffer b.base).file := by
  have hbc := bufCommit_fields fmt b
  refine ⟨by simp [bufAppendCore, hemp, hov], ?_, ?_⟩
  · by_cases hwe : (bufCommit fmt b).base.weights_enabled <;>
      simp [bufAppendCore, hemp, hov, hwe, hbc.2.1]
  · by_cases hwe : (bufCommit fmt b).base.weights_enabled <;>
      simp [bufAppendCore, hemp, hov, hwe, hbc.1]

theorem bufAppendCore_noflush (fmt : TPoint → TPoint) (t : Streamline)
    (hemp : t.points.isEmpty = false) (b : BufWriter)
    (hov : ¬ b.buffer.length + t.points.length > b.buffer_capacity) :
    (bufAppendCore fmt t b).2 = 0 ∧
      (bufAppendCore fmt t b).1.buffer =
        b.buffer ++ t.points.map fmt ++ [fmt delimiter] ∧
      (bufAppendCore fmt t b).1.base.file = b.base.file := by
  refine ⟨by simp [bufAppendCore, hemp, hov], ?_, ?_⟩
  · by_cases hwe : b.base.weights_enabled <;>
      simp [bufAppendCore, hemp, hov, hwe]
  · by_cases hwe : b.base.weights_enabled <;>
      simp [bufAppendCore, hemp, hov, hwe]

theorem bufAppendCore_fields_empty (fmt : TPoint → TPoint) (t : Streamline)
    (hemp : t.points.isEmpty = true) (b : BufWriter) :
    (bufAppendCore fmt t b).1.base.file = b.base.file ∧
      (bufAppendCore fmt t b).1.base.barrier_addr = b.base.barrier_addr ∧
      (bufAppendCore fmt t b).1.buffer = b.buffer ∧
      (bufAppendCore fmt t b).1.base.weights_file = b.base.weights_file ∧
      (bufAppendCore fmt t b).1.weights_buffer = b.weights_buffer ∧
      (bufAppendCore fmt t b).1.base.count = b.base.count ∧
      (bufAppendCore fmt t b).1.base.total_count = b.base.total_count + 1 ∧
      (bufAppendCore fmt t b).1.base.hdr_count = b.base.hdr_count ∧
      (bufAppendCore fmt t b).1.base.hdr_total_count =
        b.base.hdr_total_count ∧
      (bufAppendCore fmt t b).1.base.weights_enabled =
        b.base.weights_enabled ∧
      (bufAppendCore fmt t b).1.buffer_capacity = b.buffer_capacity := by
  simp [bufAppendCore, hemp]

theorem bufAppendCore_fields_noflush (fmt : TPoint → TPoint)
    (t : Streamline) (hemp : t.points.isEmpty = false) (b : BufWriter)
    (hov : ¬ b.buffer.length + t.points.length > b.buffer_capacity)
    (hwe : b.base.weights_enabled = true) :
    (bufAppendCore fmt t b).1.base.file = b.base.file ∧
      (bufAppendCore fmt t b).1.base.barrier_addr = b.base.barrier_addr ∧
      (bufAppendCore fmt t b).1.buffer =
        b.buffer ++ (t.points.map fmt ++ [fmt delimiter]) ∧
      (bufAppendCore fmt t b).1.base.weights_file = b.base.weights_file ∧
      (bufAppendCore fmt t b).1.weights_buffer =
        b.weights_buffer ++ [t.weight] ∧
      (bufAppendCore fmt t b).1.base.count = b.base.count + 1 ∧
      (bufAppendCore fmt t b).1.base.total_count = b.base.total_count + 1 ∧
      (bufAppendCore fmt t b).1.base.hdr_count = b.base.hdr_count ∧
      (bufAppendCore fmt t b).1.base.hdr_total_count =
        b.base.hdr_total_count ∧
      (bufAppendCore fmt t b).1.base.weights_enabled = true ∧
      (bufAppendCore fmt t b).1.buffer_capacity = b.buffer_capacity := by
  simp [bufAppendCore, hemp, hov, hwe]

theorem bufAppendCore_fields_flush (fmt : TPoint → TPoint)
    (t : Streamline) (hemp : t.points.isEmpty = false) (b : BufWriter)
    (hov : b.buffer.length + t.points.length > b.buffer_capacity)
    (hwe : b.base.weights_enabled = true) :
    (bufAppendCore fmt t b).1.base.file =
      (commit fmt b.buffer b.base).file ∧
      (bufAppendCore fmt t b).1.base.barrier_addr =
        (commit fmt b.buffer b.base).barrier_addr ∧
      (bufAppendCore fmt t b).1.buffer =
        t.points.map fmt ++ [fmt delimiter] ∧
      (bufAppendCore fmt t b).1.base.weights_file =
        b.base.weights_file ++ b.weights_buffer ∧
      (bufAppendCore fmt t b).1.weights_buffer = [t.weight] ∧
      (bufAppendCore fmt t b).1.base.count = b.base.count + 1 ∧
      (bufAppendCore fmt t b).1.base.total_count = b.base.total_count + 1 ∧
      (bufAppendCore fmt t b).1.base.hdr_count =
        (commit fmt b.buffer b.base).hdr_count ∧
      (bufAppendCore fmt t b).1.base.hdr_total_count =
        (commit fmt b.buffer b.base).hdr_total_count ∧
      (bufAppendCore fmt t b).1.base.weights_enabled = true ∧
      (bufAppendCore fmt t b).1.buffer_capacity = b.buffer_capacity := by
  have hcwe : (commit fmt b.buffer b.base).weights_enabled = true :=
    (commit_counts fmt b.buffer b.base).2.2.1.trans hwe
  have hcwf : (commit fmt b.buffer b.base).weights_file =
      b.base.weights_file := (commit_counts fmt b.buffer b.base).2.2.2
  have hcc : (commit fmt b.buffer b.base).count = b.base.count :=
    (commit_counts fmt b.buffer b.base).1
  have hct : (commit fmt b.buffer b.base).total_count = b.base.total_count :=
    (commit_counts fmt b.buffer b.base).2.1
  simp [bufAppendCore, bufCommit, hemp, hov, hcwe, hcwf, hcc, hct]

theorem encS_ne_nil (fmt : TPoint → TPoint) (ts : List Streamline)
    (h : ts ≠ []) : encS fmt ts ≠ [] := by
  cases ts with
  | nil => exact absurd rfl h
  | cons t ts => simp [encS]

theorem encS_singleton (fmt : TPoint → TPoint) (t : Streamline) :
    encS fmt [t] = t.points.map fmt ++ [fmt delimiter] := by
  simp [encS]

theorem bufInv_create (fmt : TPoint → TPoint) (cap : ℕ) :
    BufInv fmt [] (BufWriter.create fmt cap true) := by
  exact ⟨[], [], by simp, by simp [BufWriter.create, WriterState.create, encS],
    by simp [BufWriter.create, WriterState.create, encS],
    by simp [BufWriter.create, encS],
    by simp [BufWriter.create, WriterState.create],
    by simp [BufWriter.create],
    by simp [BufWriter.create, WriterState.create],
    by simp [BufWriter.create, WriterState.create],
    fun _ => ⟨rfl, by simp [BufWriter.create, WriterState.create]⟩,
    by simp [BufWriter.create, WriterState.create]⟩

theorem bufInv_step (fmt : TPoint → TPoint) (as : List Streamline)
    (t : Streamline) (b : BufWriter) (h : BufInv fmt as b) :
    BufInv fmt (as ++ [t]) (bufAppend fmt t b) := by
  obtain ⟨fl, pe, hfil, hfile, haddr, hbuf, hwf, hwb, hcnt, htot, hhdr, hwe⟩ := h
  by_cases hemp : t.points.isEmpty = true
  · obtain ⟨hf1, hf2, hf3, hf4, hf5, hf6, hf7, hf8, hf9, hf10, hf11⟩ :=
      bufAppendCore_fields_empty fmt t hemp b
    refine ⟨fl, pe, ?_, ?_, ?_, ?_, ?_, ?_, ?_, ?_, ?_, ?_⟩
    · simp [List.filter_append, hemp, hfil]
    · rw [bufAppend, hf1, hfile]
    · rw [bufAppend, hf2, haddr]
    · rw [bufAppend, hf3, hbuf]
    · rw [bufAppend, hf4, hwf]
    · rw [bufAppend, hf5, hwb]
    · rw [bufAppend, hf6, hcnt]
    · rw [bufAppend, hf7, htot]
      simp
    · intro hpe
      exact ⟨(hhdr hpe).1, by rw [bufAppend, hf9]; exact (hhdr hpe).2⟩
    · rw [bufAppend, hf10, hwe]
  · have hne : t.points.isEmpty = false := by
      cases h2 : t.points.isEmpty
      · rfl
      · exact absurd h2 hemp
    by_cases hov : b.buffer.length + t.points.length > b.buffer_capacity
    · obtain ⟨hf1, hf2, hf3, hf4, hf5, hf6, hf7, hf8, hf9, hf10, hf11⟩ :=
        bufAppendCore_fields_flush fmt t hne b hov hwe
      by_cases hpe : pe = []
      · subst hpe
        have hfl : fl = [] := (hhdr rfl).1
        subst hfl
        have hb0 : b.buffer = [] := by simpa [encS] using hbuf
        have hnoop : commit fmt b.buffer b.base = b.base := by
          rw [hb0]
          rfl
        refine ⟨[], [t], ?_, ?_, ?_, ?_, ?_, ?_, ?_, ?_, ?_, ?_⟩
        · simp only [List.filter_append] at hfil ⊢
          simp [hfil, hne]
        · rw [bufAppend, hf1, hnoop, hfile]
        · rw [bufAppend, hf2, hnoop, haddr]
        · rw [bufAppend, hf3, encS_singleton]
        · rw [bufAppend, hf4, hwf, hwb]
          simp
        · rw [bufAppend, hf5]
          simp
        · rw [bufAppend, hf6, hcnt]
          simp
        · rw [bufAppend, hf7, htot]
          simp
        · intro hcontr
          exact absurd hcontr (by simp)
        · rw [bufAppend, hf10]
      · have hbne : b.buffer ≠ [] := by
          rw [hbuf]
          exact encS_ne_nil fmt pe hpe
        obtain ⟨hc1, hc2, hc3, hc4, hc5, hc6, hc7, hc8⟩ :=
          commit_ne fmt b.buffer b.base (encS fmt fl) hbne hfile haddr
        refine ⟨fl ++ pe, [t], ?_, ?_, ?_, ?_, ?_, ?_, ?_, ?_, ?_, ?_⟩
        · simp only [List.filter_append] at hfil ⊢
          simp [hfil, hne]
        · rw [bufAppend, hf1, hc1, hbuf, encS_append, List.append_assoc]
        · rw [bufAppend, hf2, hc2, hbuf, encS_append]
          simp
        · rw [bufAppend, hf3, encS_singleton]
        · rw [bufAppend, hf4, hwf, hwb]
          simp
        · rw [bufAppend, hf5]
          simp
        · rw [bufAppend, hf6, hcnt]
          simp
        · rw [bufAppend, hf7, htot]
          simp
        · intro hcontr
          exact absurd hcontr (by simp)
        · rw [bufAppend, hf10]
    · obtain ⟨hf1, hf2, hf3, hf4, hf5, hf6, hf7, hf8, hf9, hf10, hf11⟩ :=
        bufAppendCore_fields_noflush fmt t hne b hov hwe
      refine ⟨fl, pe ++ [t], ?_, ?_, ?_, ?_, ?_, ?_, ?_, ?_, ?_, ?_⟩
      · simp only [List.filter_append] at hfil ⊢
        simp [hfil, hne]
      · rw [bufAppend, hf1, hfile]
      · rw [bufAppend, hf2, haddr]
      · rw [bufAppend, hf3, hbuf, encS_append, encS_singleton]
      · rw [bufAppend, hf4, hwf]
      · rw [bufAppend, hf5, hwb]
        simp
      · rw [bufAppend, hf6, hcnt]
        simp
        omega
      · rw [bufAppend, hf7, htot]
        simp
      · intro hcontr
        exact absurd hcontr (by simp)
      · rw [bufAppend, hf10]

theorem bufInv_foldl (fmt : TPoint → TPoint) (as2 : List Streamline) :
    ∀ (as : List Streamline) (b : BufWriter), BufInv fmt as b →
      BufInv fmt (as ++ as2)
        (as2.foldl (fun b t => bufAppend fmt t b) b) := by
  induction as2 with
  | nil => intro as b h; simpa using h
  | cons t ts ih =>
      intro as b h
      have h3 := ih (as ++ [t]) (bufAppend fmt t b) (bufInv_step fmt as t b h)
      simpa using h3

theorem bufClose_inv (fmt : TPoint → TPoint) (as : List Streamline)
    (b : BufWriter) (h : BufInv fmt as b) :
    (bufClose fmt b).base.file =
      encS fmt (as.filter (fun t => !t.points.isEmpty)) ++ [fmt barrier] ∧
      (bufClose fmt b).base.weights_file =
        (as.filter (fun t => !t.points.isEmpty)).map Streamline.weight ∧
      (bufClose fmt b).base.count =
        (as.filter (fun t => !t.points.isEmpty)).length ∧
      (bufClose fmt b).base.total_count = as.length ∧
      ((∃ t ∈ as, t.points ≠ []) →
        (bufClose fmt b).base.hdr_total_count = as.length) := by
  obtain ⟨fl, pe, hfil, hfile, haddr, hbuf, hwf, hwb, hcnt, htot, hhdr, hwe⟩ := h
  have hcwe : (commit fmt b.buffer b.base).weights_enabled = true :=
    (commit_counts fmt b.buffer b.base).2.2.1.trans hwe
  by_cases hpe : pe = []
  · subst hpe
    have hfl : fl = [] := (hhdr rfl).1
    subst hfl
    have hb0 : b.buffer = [] := by simpa [encS] using hbuf
    have hnoop : commit fmt b.buffer b.base = b.base := by
      rw [hb0]
      rfl
    have hnb : as.filter (fun t => !t.points.isEmpty) = [] := by
      simpa using hfil
    refine ⟨?_, ?_, ?_, ?_, ?_⟩
    · simp [bufClose, bufCommit, hcwe, hnoop, hwe, hfile, hnb]
    · simp [bufClose, bufCommit, hcwe, hnoop, hwe, hwf, hwb, hnb]
    · simp [bufClose, bufCommit, hcwe, hnoop, hwe, hcnt, hnb]
    · simp [bufClose, bufCommit, hcwe, hnoop, hwe, htot]
    · intro hex
      obtain ⟨t, hmem, htne⟩ := hex
      have : t ∈ as.filter (fun t => !t.points.isEmpty) := by
        simp only [List.mem_filter]
        refine ⟨hmem, ?_⟩
        cases h2 : t.points.isEmpty
        · rfl
        · exact absurd (by simpa using h2) htne
      rw [hnb] at this
      exact absurd this (by simp)
  · have hbne : b.buffer ≠ [] := by
      rw [hbuf]
      exact encS_ne_nil fmt pe hpe
    obtain ⟨hc1, hc2, hc3, hc4, hc5, hc6, hc7, hc8⟩ :=
      commit_ne fmt b.buffer b.base (encS fmt fl) hbne hfile haddr
    refine ⟨?_, ?_, ?_, ?_, ?_⟩
    · simp only [bufClose, bufCommit, hcwe, if_true]
      rw [hc1, hbuf, hfil, encS_append, List.append_assoc]
    · simp only [bufClose, bufCommit, hcwe, if_true]
      rw [hc8, hwf, hwb, hfil]
      simp
    · simp only [bufClose, bufCommit, hcwe, if_true]
      rw [hc3, hcnt, hfil]
      simp
    · simp only [bufClose, bufCommit, hcwe, if_true]
      rw [hc4, htot]
    · intro _
      simp only [bufClose, bufCommit, hcwe, if_true]
      rw [hc6, htot]

/-- C3 (amended): appending N streamline attempts (some possibly empty)
through the buffered writer and closing it yields a track file from which
the reader recovers exactly the non-empty streamlines, in order, with
their point sequences and weights; the in-memory `total_count` equals N,
and the persisted header `total_count` equals N provided at least one
attempt was non-empty (when every attempt is empty, nothing is ever
committed and the persisted value remains 0). -/
theorem writer_reader_roundtrip (fmt : TPoint → TPoint)
    (hfmt : ∀ p, fmt (fmt p) = p) (cap : ℕ) (as : List Streamline)
    (hreg : ∀ t ∈ as, ∀ p ∈ t.points, p.regular) (final : BufWriter)
    (hfin : final = bufClose fmt (as.foldl (fun b t => bufAppend fmt t b)
      (BufWriter.create fmt cap true))) :
    readTracks fmt final.base.weights_file final.base.file =
      (as.filter (fun t => !t.points.isEmpty)).map
        (fun t => (t.points, t.weight)) ∧
      final.base.weights_file =
        (as.filter (fun t => !t.points.isEmpty)).map Streamline.weight ∧
      final.base.count = (as.filter (fun t => !t.points.isEmpty)).length ∧
      final.base.total_count = as.length ∧
      ((∃ t ∈ as, t.points ≠ []) →
        final.base.hdr_total_count = as.length) := by
  subst hfin
  have hinv := bufInv_foldl fmt as [] (BufWriter.create fmt cap true)
    (bufInv_create fmt cap)
  simp only [List.nil_append] at hinv
  have hcl := bufClose_inv fmt as _ hinv
  refine ⟨?_, hcl.2.1, hcl.2.2.1, hcl.2.2.2.1, hcl.2.2.2.2⟩
  rw [readTracks, hcl.1, hcl.2.1]
  have hregf : ∀ t ∈ as.filter (fun t => !t.points.isEmpty),
      ∀ p ∈ t.points, p.regular := by
    intro t ht p hp
    exact hreg t (List.mem_of_mem_filter ht) p hp
  have hlen : (0 : ℕ) + (as.filter (fun t => !t.points.isEmpty)).length ≤
      ((as.filter (fun t => !t.points.isEmpty)).map
        Streamline.weight).length := by
    simp
  rw [readLoop_encS fmt hfmt _ _ 0 hregf (Or.inr hlen)]
  have hp := pairs_map_weight (as.filter (fun t => !t.points.isEmpty)) []
  simpa using hp

/-- Witness for C3 (amended): one non-empty and one empty attempt. -/
theorem writer_reader_roundtrip_witness :
    ((∀ p : TPoint, id (id p) = p) ∧
      (∀ t ∈ [Streamline.mk
          [TPoint.mk (FVal.num 1) (FVal.num 2) (FVal.num 3)] (3/2),
        Streamline.mk [] 1], ∀ p ∈ t.points, p.regular) ∧
      bufClose id ([Streamline.mk
          [TPoint.mk (FVal.num 1) (FVal.num 2) (FVal.num 3)] (3/2),
        Streamline.mk [] 1].foldl (fun b t => bufAppend id t b)
          (BufWriter.create id 2 true)) =
        bufClose id ([Streamline.mk
            [TPoint.mk (FVal.num 1) (FVal.num 2) (FVal.num 3)] (3/2),
          Streamline.mk [] 1].foldl (fun b t => bufAppend id t b)
            (BufWriter.create id 2 true))) ∧
    (readTracks id
        (bufClose id ([Streamline.mk
            [TPoint.mk (FVal.num 1) (FVal.num 2) (FVal.num 3)] (3/2),
          Streamline.mk [] 1].foldl (fun b t => bufAppend id t b)
            (BufWriter.create id 2 true))).base.weights_file
        (bufClose id ([Streamline.mk
            [TPoint.mk (FVal.num 1) (FVal.num 2) (FVal.num 3)] (3/2),
          Streamline.mk [] 1].foldl (fun b t => bufAppend id t b)
            (BufWriter.create id 2 true))).base.file =
      ([Streamline.mk
          [TPoint.mk (FVal.num 1) (FVal.num 2) (FVal.num 3)] (3/2),
        Streamline.mk [] 1].filter (fun t => !t.points.isEmpty)).map
          (fun t => (t.points, t.weight)) ∧
      (bufClose id ([Streamline.mk
          [TPoint.mk (FVal.num 1) (FVal.num 2) (FVal.num 3)] (3/2),
        Streamline.mk [] 1].foldl (fun b t => bufAppend id t b)
          (BufWriter.create id 2 true))).base.weights_file =
        ([Streamline.mk
            [TPoint.mk (FVal.num 1) (FVal.num 2) (FVal.num 3)] (3/2),
          Streamline.mk [] 1].filter (fun t => !t.points.isEmpty)).map
            Streamline.weight ∧
      (bufClose id ([Streamline.mk
          [TPoint.mk (FVal.num 1) (FVal.num 2) (FVal.num 3)] (3/2),
        Streamline.mk [] 1].foldl (fun b t => bufAppend id t b)
          (BufWriter.create id 2 true))).base.count =
        ([Streamline.mk
            [TPoint.mk (FVal.num 1) (FVal.num 2) (FVal.num 3)] (3/2),
          Streamline.mk [] 1].filter (fun t => !t.points.isEmpty)).length ∧
      (bufClose id ([Streamline.mk
          [TPoint.mk (FVal.num 1) (FVal.num 2) (FVal.num 3)] (3/2),
        Streamline.mk [] 1].foldl (fun b t => bufAppend id t b)
          (BufWriter.create id 2 true))).base.total_count =
        ([Streamline.mk
            [TPoint.mk (FVal.num 1) (FVal.num 2) (FVal.num 3)] (3/2),
          Streamline.mk [] 1] : List Streamline).length ∧
      ((∃ t ∈ [Streamline.mk
          [TPoint.mk (FVal.num 1) (FVal.num 2) (FVal.num 3)] (3/2),
        Streamline.mk [] 1], t.points ≠ []) →
        (bufClose id ([Streamline.mk
            [TPoint.mk (FVal.num 1) (FVal.num 2) (FVal.num 3)] (3/2),
          Streamline.mk [] 1].foldl (fun b t => bufAppend id t b)
            (BufWriter.create id 2 true))).base.hdr_total_count =
          ([Streamline.mk
              [TPoint.mk (FVal.num 1) (FVal.num 2) (FVal.num 3)] (3/2),
            Streamline.mk [] 1] : List Streamline).length)) :=
  ⟨⟨fun _ => rfl, by decide, rfl⟩,
    writer_reader_roundtrip id (fun _ => rfl) 2
      [Streamline.mk [TPoint.mk (FVal.num 1) (FVal.num 2) (FVal.num 3)] (3/2),
        Streamline.mk [] 1] (by decide) _ rfl⟩

/-- Counterexample for C3 as stated: a single empty attempt (N = 1). The
reader correctly yields no streamline, but the header value `total_count`
persisted in the file is 0, not N = 1: the final `commit()` returns
without touching the file when the buffer is empty, so `update_counts`
never runs. -/
theorem writer_reader_roundtrip_counterexample :
    (bufClose id (bufAppend id (Streamline.mk [] 1)
        (BufWriter.create id 2 true))).base.hdr_total_count = 0 ∧
      (bufClose id (bufAppend id (Streamline.mk [] 1)
          (BufWriter.create id 2 true))).base.total_count = 1 ∧
      readTracks id
          (bufClose id (bufAppend id (Streamline.mk [] 1)
            (BufWriter.create id 2 true))).base.weights_file
          (bufClose id (bufAppend id (Streamline.mk [] 1)
            (BufWriter.create id 2 true))).base.file = [] ∧
      (0 : ℕ) ≠ 1 := by
  refine ⟨by decide, by decide, by decide, by decide⟩

/-- C8: the buffered writer flushes exactly when a non-empty streamline
would overflow the buffer (`buffer_size + tck.size() > buffer_capacity`),
and then the flush commits the old buffer contents before the new points
are placed; otherwise the file is untouched. On `close` the buffer is
always committed. In particular, with capacity exactly 2 points, appending
a 3-point streamline to a fresh writer triggers exactly one flush, and the
buffer afterwards holds only the new streamline's records. -/
theorem writer_buffered_flush_only_on_overflow :
    (∀ (fmt : TPoint → TPoint) (tck : Streamline) (b : BufWriter),
      (bufAppendCore fmt tck b).2 =
        (if tck.points.isEmpty = false ∧
            b.buffer.length + tck.points.length > b.buffer_capacity
          then 1 else 0) ∧
      (if tck.points.isEmpty = false ∧
          b.buffer.length + tck.points.length > b.buffer_capacity then
        (bufAppendCore fmt tck b).1.buffer =
          tck.points.map fmt ++ [fmt delimiter] ∧
        (bufAppendCore fmt tck b).1.base.file =
          (commit fmt b.buffer b.base).file
      else (bufAppendCore fmt tck b).1.base.file = b.base.file)) ∧
    (∀ (fmt : TPoint → TPoint) (b : BufWriter),
      (bufClose fmt b).base.file = (commit fmt b.buffer b.base).file ∧
        (bufClose fmt b).buffer = []) ∧
    ((bufAppendCore id (Streamline.mk
        [TPoint.mk (FVal.num 1) (FVal.num 1) (FVal.num 1),
          TPoint.mk (FVal.num 2) (FVal.num 2) (FVal.num 2),
          TPoint.mk (FVal.num 3) (FVal.num 3) (FVal.num 3)] 1)
        (BufWriter.create id 2 false)).2 = 1 ∧
      (bufAppendCore id (Streamline.mk
          [TPoint.mk (FVal.num 1) (FVal.num 1) (FVal.num 1),
            TPoint.mk (FVal.num 2) (FVal.num 2) (FVal.num 2),
            TPoint.mk (FVal.num 3) (FVal.num 3) (FVal.num 3)] 1)
          (BufWriter.create id 2 false)).1.buffer =
        [TPoint.mk (FVal.num 1) (FVal.num 1) (FVal.num 1),
          TPoint.mk (FVal.num 2) (FVal.num 2) (FVal.num 2),
          TPoint.mk (FVal.num 3) (FVal.num 3) (FVal.num 3), delimiter]) := by
  refine ⟨?_, ?_, by decide, by decide⟩
  · intro fmt tck b
    by_cases hemp : tck.points.isEmpty = true
    · have h0 := bufAppendCore_empty fmt tck hemp b
      rw [if_neg (by simp [hemp]), if_neg (by simp [hemp])]
      exact ⟨h0.1, h0.2.2⟩
    · have hf : tck.points.isEmpty = false := by
        cases h : tck.points.isEmpty
        · rfl
        · exact absurd h hemp
      by_cases hov : b.buffer.length + tck.points.length > b.buffer_capacity
      · have h1 := bufAppendCore_flush fmt tck hf b hov
        rw [if_pos ⟨hf, hov⟩, if_pos ⟨hf, hov⟩]
        exact ⟨h1.1, h1.2.1, h1.2.2⟩
      · have h1 := bufAppendCore_noflush fmt tck hf b hov
        rw [if_neg (by simp [hov]), if_neg (by simp [hov])]
        exact ⟨h1.1, h1.2.2⟩
  · intro fmt b
    exact ⟨(bufCommit_fields fmt b).1, (bufCommit_fields fmt b).2.1⟩

theorem Vec3.dot_neg (a b : Vec3) : a.dot (-b) = -(a.dot b) := by
  show a.x * (-b.x) + a.y * (-b.y) + a.z * (-b.z) =
    -(a.x * b.x + a.y * b.y + a.z * b.z)
  ring

/-! ### Claims about the FACT method -/

/-- C1: in a FACT step that has passed the FA test, `do_next` returns
`HIGH_CURVATURE` exactly when the pre-correction dot product of the
previous and new directions satisfies `|prev · new| < cos_max_angle`;
otherwise the new direction is negated when `prev · new < 0` (so the
post-correction dot product is nonnegative), the position advances by the
corrected direction times `step_size`, and `CONTINUE` is returned. -/
theorem fact_do_next_curvature_and_advance
    (S : FACT.Shared) (fa : ℚ) (ev : Vec3) (st : FACT.MethodState)
    (hfa : S.threshold ≤ fa) :
    ((FACT.do_next S fa ev st).1 = term_t.HIGH_CURVATURE ↔
        |st.dir.dot ev| < S.cos_max_angle) ∧
      (¬ |st.dir.dot ev| < S.cos_max_angle →
        (FACT.do_next S fa ev st).1 = term_t.CONTINUE ∧
          (FACT.do_next S fa ev st).2.dir =
            (if st.dir.dot ev < 0 then -ev else ev) ∧
          0 ≤ st.dir.dot (FACT.do_next S fa ev st).2.dir ∧
          (FACT.do_next S fa ev st).2.pos =
            st.pos + S.step_size • (FACT.do_next S fa ev st).2.dir) := by
  have hnot : ¬ fa < S.threshold := not_lt.mpr hfa
  constructor
  · constructor
    · intro h
      by_contra hc
      simp only [FACT.do_next, hnot, if_false, hc, if_false] at h
      by_cases hneg : st.dir.dot ev < 0 <;> simp [hneg] at h
    · intro h
      simp [FACT.do_next, hnot, h]
  · intro hc
    have hcorr : 0 ≤ st.dir.dot (if st.dir.dot ev < 0 then -ev else ev) := by
      by_cases hneg : st.dir.dot ev < 0
      · simp only [hneg, if_true, Vec3.dot_neg]
        linarith
      · simpa [hneg] using not_lt.mp hneg
    by_cases hneg : st.dir.dot ev < 0
    · refine ⟨by simp [FACT.do_next, hnot, hc, hneg], ?_, ?_, ?_⟩
      · simp [FACT.do_next, hnot, hc, hneg]
      · simpa [FACT.do_next, hnot, hc, hneg] using hcorr
      · simp [FACT.do_next, hnot, hc, hneg]
    · refine ⟨by simp [FACT.do_next, hnot, hc, hneg], ?_, ?_, ?_⟩
      · simp [FACT.do_next, hnot, hc, hneg]
      · simpa [FACT.do_next, hnot, hc, hneg] using hcorr
      · simp [FACT.do_next, hnot, hc, hneg]

/-- Witness for C1: concrete step with threshold 0, `cos_max_angle = 1/2`,
previous direction `(1,0,0)` and new direction `(-1,0,0)`. -/
theorem fact_do_next_curvature_and_advance_witness :
    (FACT.Shared.mk 0 0 (1/2) 1).threshold ≤ (1 : ℚ) ∧
      (((FACT.do_next (FACT.Shared.mk 0 0 (1/2) 1) 1 (Vec3.mk (-1) 0 0)
            (FACT.MethodState.mk (Vec3.mk 0 0 0) (Vec3.mk 1 0 0))).1 =
              term_t.HIGH_CURVATURE ↔
          |(Vec3.mk 1 0 0).dot (Vec3.mk (-1) 0 0)| <
            (FACT.Shared.mk 0 0 (1/2) 1).cos_max_angle) ∧
        (¬ |(Vec3.mk 1 0 0).dot (Vec3.mk (-1) 0 0)| <
              (FACT.Shared.mk 0 0 (1/2) 1).cos_max_angle →
          (FACT.do_next (FACT.Shared.mk 0 0 (1/2) 1) 1 (Vec3.mk (-1) 0 0)
              (FACT.MethodState.mk (Vec3.mk 0 0 0) (Vec3.mk 1 0 0))).1 =
              term_t.CONTINUE ∧
            (FACT.do_next (FACT.Shared.mk 0 0 (1/2) 1) 1 (Vec3.mk (-1) 0 0)
                (FACT.MethodState.mk (Vec3.mk 0 0 0) (Vec3.mk 1 0 0))).2.dir =
              (if (Vec3.mk 1 0 0).dot (Vec3.mk (-1) 0 0) < 0 then
                -(Vec3.mk (-1) 0 0) else Vec3.mk (-1) 0 0) ∧
            0 ≤ (Vec3.mk 1 0 0).dot
                (FACT.do_next (FACT.Shared.mk 0 0 (1/2) 1) 1 (Vec3.mk (-1) 0 0)
                  (FACT.MethodState.mk (Vec3.mk 0 0 0) (Vec3.mk 1 0 0))).2.dir ∧
            (FACT.do_next (FACT.Shared.mk 0 0 (1/2) 1) 1 (Vec3.mk (-1) 0 0)
                (FACT.MethodState.mk (Vec3.mk 0 0 0) (Vec3.mk 1 0 0))).2.pos =
              Vec3.mk 0 0 0 +
                (FACT.Shared.mk 0 0 (1/2) 1).step_size •
                  (FACT.do_next (FACT.Shared.mk 0 0 (1/2) 1) 1 (Vec3.mk (-1) 0 0)
                    (FACT.MethodState.mk (Vec3.mk 0 0 0) (Vec3.mk 1 0 0))).2.dir)) :=
  ⟨by decide,
    fact_do_next_curvature_and_advance (FACT.Shared.mk 0 0 (1/2) 1) 1
      (Vec3.mk (-1) 0 0) (FACT.MethodState.mk (Vec3.mk 0 0 0) (Vec3.mk 1 0 0))
      (by decide)⟩

/-- C9: `FACT::init` fails exactly when the image cannot be sampled at the
seed or the FA there is below `init_threshold` (and establishes the
initial direction otherwise); `FACT::next` returns `EXIT_IMAGE` when the
current position cannot be sampled, and returns `BAD_SIGNAL` exactly when
the local FA falls below `threshold`. -/
theorem fact_init_next_error_codes
    (S : FACT.Shared) (st : FACT.MethodState) (fa : ℚ) (ev : Vec3) :
    (FACT.init S none st).1 = false ∧
      ((FACT.init S (some (fa, ev)) st).1 = false ↔ fa < S.init_threshold) ∧
      (FACT.init S (some (fa, ev)) st).2.dir =
        (if fa < S.init_threshold then st.dir else ev) ∧
      (FACT.next S none st).1 = term_t.EXIT_IMAGE ∧
      ((FACT.next S (some (fa, ev)) st).1 = term_t.BAD_SIGNAL ↔
        fa < S.threshold) := by
  refine ⟨rfl, ?_, ?_, rfl, ?_⟩
  · by_cases h : fa < S.init_threshold <;> simp [FACT.init, h]
  · by_cases h : fa < S.init_threshold <;> simp [FACT.init, h]
  · constructor
    · intro h
      by_contra hfa
      simp only [FACT.next, FACT.do_next, hfa, if_false] at h
      by_cases hc : |st.dir.dot ev| < S.cos_max_angle
      · simp [hc] at h
      · by_cases hneg : st.dir.dot ev < 0 <;> simp [hc, hneg] at h
    · intro h
      simp [FACT.next, FACT.do_next, h]

/-! ### Claims about `SharedBase` -/

/-- C4 (amended): after `set_step_size`, the invariant
`cos_max_angle = cos(max_angle)` holds when the `rk4` flag is off; when
`rk4` is configured, `max_angle` is set to π while `cos_max_angle` is set
to 0 (not `cos π = -1`), and the separately stored rk4 pair satisfies
`cos_max_angle_rk4 = cos(max_angle_rk4)`. -/
theorem set_step_size_cos_max_angle (ds : ℕ) (vx r : ℝ)
    (s : SharedState) (m : PropMap) :
    if s.rk4 then
      (set_step_size ds vx r s m).1.max_angle = Real.pi ∧
        (set_step_size ds vx r s m).1.cos_max_angle = 0 ∧
        (set_step_size ds vx r s m).1.cos_max_angle_rk4 =
          Real.cos (set_step_size ds vx r s m).1.max_angle_rk4
    else
      (set_step_size ds vx r s m).1.cos_max_angle =
        Real.cos (set_step_size ds vx r s m).1.max_angle := by
  by_cases h : s.rk4 <;> simp [set_step_size, h]

/-- Counterexample for C4 as stated: with `rk4` configured, one concrete
`set_step_size` call leaves `cos_max_angle = 0` while
`cos (max_angle) = cos π = -1`, so the claimed invariant fails. -/
theorem set_step_size_rk4_cos_counterexample :
    (set_step_size 1 1 1 (SharedState.mk 0 0 0 0 0 0 0 0 0 true)
        (fun _ => none)).1.cos_max_angle = 0 ∧
      Real.cos (set_step_size 1 1 1 (SharedState.mk 0 0 0 0 0 0 0 0 0 true)
          (fun _ => none)).1.max_angle = -1 ∧
      (0 : ℝ) ≠ -1 := by
  refine ⟨by simp [set_step_size], ?_, by norm_num⟩
  have h : (set_step_size 1 1 1 (SharedState.mk 0 0 0 0 0 0 0 0 0 true)
      (fun _ => none)).1.max_angle = Real.pi := by
    simp [set_step_size]
  rw [h, Real.cos_pi]

/-- C5: for a positive relative step size and positive voxel dimensions,
with none of the derived keys pre-set in the properties map,
`set_step_size` yields `step_size = r * vox` (the cube root of the voxel
volume), strictly positive, with
`max_num_points = round(100 vox / step_size) + 1` and
`min_num_points = max 2 (round(5 vox / step_size) + 1)`. -/
theorem set_step_size_lengths (ds : ℕ) (a b c r : ℝ) (s : SharedState)
    (m : PropMap) (ha : 0 < a) (hb : 0 < b) (hc : 0 < c) (hr : 0 < r)
    (h1 : m PKey.step_size = none) (h2 : m PKey.max_dist = none)
    (h3 : m PKey.min_dist = none) :
    (set_step_size ds (vox a b c) r s m).1.step_size = r * vox a b c ∧
      0 < (set_step_size ds (vox a b c) r s m).1.step_size ∧
      (set_step_size ds (vox a b c) r s m).1.max_num_points =
        round (100 * vox a b c /
          (set_step_size ds (vox a b c) r s m).1.step_size) + 1 ∧
      (set_step_size ds (vox a b c) r s m).1.min_num_points =
        max 2 (round (5 * vox a b c /
          (set_step_size ds (vox a b c) r s m).1.step_size) + 1) := by
  have hvox : 0 < vox a b c := by
    have : 0 < a * b * c := by positivity
    exact Real.rpow_pos_of_pos this _
  have hss : 0 < r * vox a b c := mul_pos hr hvox
  by_cases hds : 1 < ds <;>
    by_cases hrk : s.rk4 <;>
      simp [set_step_size, propSet, pinsert, h1, h2, h3, hrk, hds, hss]

/-- Witness for C5: the spec scenario, a 1 mm isotropic voxel and relative
step size 0.1, giving `step_size = 0.1`, `max_num_points = 1001` and
`min_num_points = 51`. -/
theorem set_step_size_lengths_witness :
    ((0 : ℝ) < 1 ∧ (0 : ℝ) < 1 ∧ (0 : ℝ) < 1 ∧ (0 : ℝ) < 1 / 10 ∧
      ((fun _ => none : PropMap) PKey.step_size = none) ∧
      ((fun _ => none : PropMap) PKey.max_dist = none) ∧
      ((fun _ => none : PropMap) PKey.min_dist = none)) ∧
    ((set_step_size 1 (vox 1 1 1) (1 / 10)
          (SharedState.mk 0 0 0 0 0 0 0 0 0 false) (fun _ => none)).1.step_size =
        1 / 10 * vox 1 1 1 ∧
      0 < (set_step_size 1 (vox 1 1 1) (1 / 10)
          (SharedState.mk 0 0 0 0 0 0 0 0 0 false) (fun _ => none)).1.step_size ∧
      (set_step_size 1 (vox 1 1 1) (1 / 10)
          (SharedState.mk 0 0 0 0 0 0 0 0 0 false) (fun _ => none)).1.max_num_points =
        round (100 * vox 1 1 1 /
          (set_step_size 1 (vox 1 1 1) (1 / 10)
            (SharedState.mk 0 0 0 0 0 0 0 0 0 false) (fun _ => none)).1.step_size) + 1 ∧
      (set_step_size 1 (vox 1 1 1) (1 / 10)
          (SharedState.mk 0 0 0 0 0 0 0 0 0 false) (fun _ => none)).1.min_num_points =
        max 2 (round (5 * vox 1 1 1 /
          (set_step_size 1 (vox 1 1 1) (1 / 10)
            (SharedState.mk 0 0 0 0 0 0 0 0 0 false) (fun _ => none)).1.step_size) + 1)) ∧
    (set_step_size 1 (vox 1 1 1) (1 / 10)
        (SharedState.mk 0 0 0 0 0 0 0 0 0 false) (fun _ => none)).1.step_size = 1 / 10 ∧
    (set_step_size 1 (vox 1 1 1) (1 / 10)
        (SharedState.mk 0 0 0 0 0 0 0 0 0 false) (fun _ => none)).1.max_num_points = 1001 ∧
    (set_step_size 1 (vox 1 1 1) (1 / 10)
        (SharedState.mk 0 0 0 0 0 0 0 0 0 false) (fun _ => none)).1.min_num_points = 51 := by
  have hv : vox 1 1 1 = 1 := by
    simp [vox]
  refine ⟨⟨by norm_num, by norm_num, by norm_num, by norm_num, rfl, rfl, rfl⟩,
    set_step_size_lengths 1 1 1 1 (1 / 10)
      (SharedState.mk 0 0 0 0 0 0 0 0 0 false) (fun _ => none)
      (by norm_num) (by norm_num) (by norm_num) (by norm_num) rfl rfl rfl,
    ?_, ?_, ?_⟩
  · simp [set_step_size, propSet, hv]
  · simp [set_step_size, propSet, pinsert, hv]
    norm_num [round_eq]
  · simp [set_step_size, propSet, pinsert, hv]
    norm_num [round_eq]

/-- C10: the `SharedBase` constructor takes `threshold` from the
properties map when present (default 0.1), and `init_threshold` from the
map when present, defaulting to exactly twice the effective threshold; in
particular a map with neither key yields `threshold = 0.1` and
`init_threshold = 0.2`. -/
theorem sharedBase_default_thresholds :
    (∀ m : PropMap,
      (sharedThresholds m).1.1 = (m PKey.threshold).getD 0.1 ∧
        (sharedThresholds m).1.2 =
          (m PKey.init_threshold).getD (2 * (m PKey.threshold).getD 0.1)) ∧
      (sharedThresholds (fun _ => none)).1.1 = 0.1 ∧
      (sharedThresholds (fun _ => none)).1.2 = 0.2 := by
  have hgen : ∀ m : PropMap,
      (sharedThresholds m).1.1 = (m PKey.threshold).getD 0.1 ∧
        (sharedThresholds m).1.2 =
          (m PKey.init_threshold).getD (2 * (m PKey.threshold).getD 0.1) := by
    intro m
    cases hth : m PKey.threshold <;>
      cases hit : m PKey.init_threshold <;>
        simp [sharedThresholds, propSet, hth, hit]
  refine ⟨hgen, (hgen _).1.trans (by simp), (hgen _).2.trans (by norm_num)⟩

end MRtrix
